import Mathlib

/-!
# Verification of `scripts/fetch-edhrec-data.py`

Shallow embedding of the EDHREC data-collection pipeline
(`src/scripts/fetch-edhrec-data.py`) and proofs about it.

Modelling conventions:
* Python strings that are inspected character by character (deck-entry
  lines, card names) are `List Char`; identifier slugs and JSON object
  keys, which are only compared for equality, are Lean `String`.
* JSON values are the inductive `Json` below.  Python operations that can
  raise (`.get` on a non-dict, iterating a number, `.lower()` on a
  non-string, membership test on a non-container) are modelled in the
  `Except EErr` monad; the `try/except` of `extract_commander_info`
  corresponds to collapsing `Except` to `Option` at the function boundary.
* Digits are modelled as the ASCII decimal digits `'0'..'9'` (the decimal
  digits the spec speaks of); likewise `lower` is ASCII case folding.
* A `num_decks` field holding a non-numeric JSON value is outside the
  model (the source would carry the raw value into the record and `main`
  would fail on it when sorting, before any output document exists);
  the model reads a numeric `num_decks` and `0` otherwise.
-/

/-- JSON values, as produced by `json.loads`.  Object keys are `String`;
string payloads are `List Char` so they can be parsed character-wise. -/
inductive Json where
  | null : Json
  | bool : Bool → Json
  | num  : Int → Json
  | str  : List Char → Json
  | arr  : List Json → Json
  | obj  : List (String × Json) → Json

/-- Python truthiness (`if data:`, `if not name:`) on JSON-representable
values: `None`, `False`, `0`, `""`, `[]`, `{}` are falsy. -/
def jsonFalsy : Json → Bool
  | Json.null => true
  | Json.bool b => !b
  | Json.num n => n == 0
  | Json.str s => s.isEmpty
  | Json.arr xs => xs.isEmpty
  | Json.obj kvs => kvs.isEmpty

/-- Python `==` between a JSON value and the string `needle`
(true only for an equal string). -/
def jsonEqStr (j : Json) (needle : List Char) : Bool :=
  match j with
  | Json.str s => s == needle
  | _ => false

/-- First binding of a key in an object's association list
(JSON objects have unique keys, so first vs last is immaterial). -/
def lookupKV : List (String × Json) → String → Option Json
  | [], _ => none
  | (k, v) :: kvs, key => if k = key then some v else lookupKV kvs key

/-- Python-level errors inside `extract_commander_info`'s `try` block:
`emptyName` is the early `return None` on a falsy name, `typeError` is any
raised exception (AttributeError/TypeError/ValueError) caught by `except`. -/
inductive EErr where
  | emptyName : EErr
  | typeError : EErr
deriving DecidableEq

/-- Python `d.get(key, default)`: raises (here `.error`) when the receiver
is not a dict. -/
def jget (j : Json) (key : String) (dflt : Json) : Except EErr Json :=
  match j with
  | Json.obj kvs => Except.ok ((lookupKV kvs key).getD dflt)
  | _ => Except.error EErr.typeError

/-- Python iteration `for x in j`: lists yield elements, strings yield
one-character strings, dicts yield their keys, other values raise. -/
def iterElems : Json → Except EErr (List Json)
  | Json.arr xs => Except.ok xs
  | Json.str s => Except.ok (s.map (fun c => Json.str [c]))
  | Json.obj kvs => Except.ok (kvs.map (fun kv => Json.str kv.1.toList))
  | _ => Except.error EErr.typeError

/-- Contiguous-substring test used to model Python's `needle in string`. -/
def infixOfChars (needle : List Char) : List Char → Bool
  | [] => needle.isEmpty
  | c :: t => needle.isPrefixOf (c :: t) || infixOfChars needle t

/-- Python membership `needle in j` for a string `needle`: element test on
lists, substring test on strings, key test on dicts, raises otherwise. -/
def jsonMemColor (needle : List Char) : Json → Except EErr Bool
  | Json.arr xs => Except.ok (xs.any (fun j => jsonEqStr j needle))
  | Json.str s => Except.ok (infixOfChars needle s)
  | Json.obj kvs => Except.ok (kvs.any (fun kv => kv.1.toList == needle))
  | _ => Except.error EErr.typeError

/-- `color_order = ["W", "U", "B", "R", "G"]` (line 279). -/
def color_order : List (List Char) := [['W'], ['U'], ['B'], ['R'], ['G']]

/-- The comprehension `[c for c in color_order if c in raw_colors]`
(line 280) in the `Except` monad, since `in` can raise. -/
def filterColorsE (raw : Json) : List (List Char) → Except EErr (List (List Char))
  | [] => Except.ok []
  | c :: cs =>
    match jsonMemColor c raw with
    | Except.error e => Except.error e
    | Except.ok b =>
      match filterColorsE raw cs with
      | Except.error e => Except.error e
      | Except.ok rest => Except.ok (if b then c :: rest else rest)

def canonColorsE (raw : Json) : Except EErr (List (List Char)) :=
  filterColorsE raw color_order

/-- The same canonicalization on a JSON array `raw` (the case where
`raw_colors` is a list, in which `c in raw_colors` never raises). -/
def canonicalizeColors (raw : List Json) : List (List Char) :=
  color_order.filter (fun c => raw.any (fun j => jsonEqStr j c))

/-! ## Entry parser (`parse_deck_entry`, lines 257-262) -/

/-- Python `entry.split(" ", 1)`: the part before the first space and,
when a space exists, the remainder after it. -/
def splitFirstSpace : List Char → List Char × Option (List Char)
  | [] => ([], none)
  | c :: rest =>
    if c = ' ' then ([], some rest)
    else
      let p := splitFirstSpace rest
      (c :: p.1, p.2)

/-- Python `int(s)` on a decimal digit string. -/
def natOfDigits (s : List Char) : Nat :=
  s.foldl (fun a c => 10 * a + (c.toNat - 48)) 0

/-- `parse_deck_entry` (lines 257-262): split on the first space; if the
prefix is a non-empty digit string the pair is (remainder, int(prefix)),
otherwise (whole line, 1). -/
def parse_deck_entry (entry : List Char) : List Char × Nat :=
  match splitFirstSpace entry with
  | (p0, some p1) =>
    if p0 ≠ [] ∧ p0.all Char.isDigit then (p1, natOfDigits p0) else (entry, 1)
  | (_, none) => (entry, 1)

/-- ASCII case folding, modelling `str.lower()` on the names involved. -/
def lowerStr (s : List Char) : List Char := s.map Char.toLower

/-- Python `name.lower()`: raises when the receiver is not a string. -/
def jsonLower : Json → Except EErr (List Char)
  | Json.str s => Except.ok (lowerStr s)
  | _ => Except.error EErr.typeError

/-! ## Records -/

/-- One `{"name": ..., "quantity": ...}` element of a record's `cards`. -/
structure Item where
  name : List Char
  quantity : Nat
deriving DecidableEq

/-- The normalized commander record built at lines 296-302. -/
structure Record where
  name : Json
  slug : String
  colorIdentity : List (List Char)
  numDecks : Int
  cards : List Item

/-! ## `extract_commander_info` (lines 265-306) -/

/-- Lines 268-270: `data.get("container", {}).get("json_dict", {}).get("card", {})`. -/
def cardOfE (data : Json) : Except EErr Json :=
  match jget data "container" (Json.obj []) with
  | Except.error e => Except.error e
  | Except.ok container =>
    match jget container "json_dict" (Json.obj []) with
    | Except.error e => Except.error e
    | Except.ok json_dict => jget json_dict "card" (Json.obj [])

/-- The resolved `card.get("name", "")` of a payload (line 272). -/
def nameOfE (data : Json) : Except EErr Json :=
  match cardOfE data with
  | Except.error e => Except.error e
  | Except.ok card => jget card "name" (Json.str [])

/-- The loop at lines 290-294: parse each entry, skip the commander's own
line by case-insensitive name comparison, keep the rest in order. -/
def buildCards (name : Json) : List Json → Except EErr (List Item)
  | [] => Except.ok []
  | e :: es =>
    match e with
    | Json.str s =>
      match jsonLower name with
      | Except.error err => Except.error err
      | Except.ok nl =>
        match buildCards name es with
        | Except.error err => Except.error err
        | Except.ok rest =>
          let p := parse_deck_entry s
          Except.ok (if lowerStr p.1 == nl then rest else ⟨p.1, p.2⟩ :: rest)
    | _ => Except.error EErr.typeError

/-- Body of `extract_commander_info`'s `try` block (lines 267-302), with
the early `return None` on a falsy name as `.error emptyName` and every
caught exception as `.error typeError`. -/
def extractE (data : Json) (slug : String) : Except EErr Record :=
  match cardOfE data with
  | Except.error e => Except.error e
  | Except.ok card =>
    match jget card "name" (Json.str []) with
    | Except.error e => Except.error e
    | Except.ok name =>
      if jsonFalsy name then Except.error EErr.emptyName
      else
        match jget card "color_identity" (Json.arr []) with
        | Except.error e => Except.error e
        | Except.ok rawColors =>
          match canonColorsE rawColors with
          | Except.error e => Except.error e
          | Except.ok colorIdentity =>
            let numDecks : Int :=
              match jget card "num_decks" (Json.num 0) with
              | Except.ok (Json.num n) => n
              | _ => 0
            match jget data "deck" (Json.arr []) with
            | Except.error e => Except.error e
            | Except.ok deckJ =>
              match iterElems deckJ with
              | Except.error e => Except.error e
              | Except.ok entries =>
                match buildCards name entries with
                | Except.error e => Except.error e
                | Except.ok cardList =>
                  Except.ok { name := name, slug := slug,
                              colorIdentity := colorIdentity,
                              numDecks := numDecks, cards := cardList }

/-- `extract_commander_info` (lines 265-306): the `try` body with both the
empty-name early return and any caught exception yielding `None`. -/
def extract_commander_info (data : Json) (slug : String) : Option Record :=
  (extractE data slug).toOption

/-! ## Aggregator (`fetch_all_commanders`, lines 309-333) -/

/-- One iteration of the loop at lines 314-327: the fetch (modelled by the
external `fetchFn`, `none` = HTTP/URL/JSON failure), the truthiness check
`if data:`, then extraction. -/
def processSlug (fetchFn : String → Option Json) (slug : String) : Option Record :=
  match fetchFn slug with
  | none => none
  | some d => if jsonFalsy d then none else extract_commander_info d slug

/-- `fetch_all_commanders` (lines 309-333): successful records appended in
slug order; failures are skipped (printing and rate limiting are I/O). -/
def fetch_all_commanders (fetchFn : String → Option Json) (slugs : List String) :
    List Record :=
  slugs.filterMap (processSlug fetchFn)

/-! ## Sorting (`main`, lines 352-353) -/

/-- Stable insertion of `a` into `l`: `a` goes before the first element it
is allowed to precede (`le a x`), hence before later equal-keyed elements. -/
def insertLe (le : α → α → Bool) (a : α) : List α → List α
  | [] => [a]
  | x :: xs => if le a x then a :: x :: xs else x :: insertLe le a xs

/-- Stable sort with respect to `le` (insertion sort).  CPython's
`list.sort` is a stable sort, and a stable sort is extensionally unique,
so this is the same function `main` applies. -/
def isortLe (le : α → α → Bool) (l : List α) : List α :=
  l.foldr (insertLe le) []

/-- `commanders.sort(key=lambda c: c["numDecks"], reverse=True)`
(line 353): stable sort, descending by `numDecks`. -/
def sortCommanders (cs : List Record) : List Record :=
  isortLe (fun a b => decide (b.numDecks ≤ a.numDecks)) cs

/-- Lexicographic order on strings by code point (Python `sorted`). -/
def lexLe : List Char → List Char → Bool
  | [], _ => true
  | _ :: _, [] => false
  | a :: as, b :: bs => if a = b then lexLe as bs else decide (a < b)

/-! ## The identifier seed list and `main` (lines 24-222, 343-353) -/


/-- `TOP_COMMANDERS` (lines 24-222): the module-level seed identifier list. -/
def TOP_COMMANDERS : List String := [
  "the-ur-dragon",
  "edgar-markov",
  "atraxa-praetors-voice",
  "krenko-mob-boss",
  "kaalia-of-the-vast",
  "sauron-the-dark-lord",
  "pantlaza-sun-favored",
  "yuriko-the-tigers-shadow",
  "lathril-blade-of-the-elves",
  "kenrith-the-returned-king",
  "giada-font-of-hope",
  "jodah-the-unifier",
  "nekusar-the-mindrazer",
  "miirym-sentinel-wyrm",
  "isshin-two-heavens-as-one",
  "chatterfang-squirrel-general",
  "muldrotha-the-gravetide",
  "arcades-the-strategist",
  "korvold-fae-cursed-king",
  "prosper-tome-bound",
  "omnath-locus-of-creation",
  "wilhelt-the-rotcleaver",
  "jetmir-nexus-of-revels",
  "teysa-karlov",
  "anim-pakal-thousandth-moon",
  "sisay-weatherlight-captain",
  "the-first-sliver",
  "najeela-the-blade-blossom",
  "edgar-charmed-groom",
  "toxrill-the-corrosive",
  "sythis-harvests-hand",
  "light-paws-emperors-voice",
  "magda-brazen-outlaw",
  "kinnan-bonder-prodigy",
  "winota-joiner-of-forces",
  "urza-lord-high-artificer",
  "kozilek-the-great-distortion",
  "elesh-norn-grand-cenobite",
  "animar-soul-of-elements",
  "zur-the-enchanter",
  "chulane-teller-of-tales",
  "marwyn-the-nurturer",
  "tymna-the-weaver",
  "thrasios-triton-hero",
  "talrand-sky-summoner",
  "yarok-the-desecrated",
  "kykar-winds-fury",
  "feather-the-redeemed",
  "gishath-suns-avatar",
  "the-gitrog-monster",
  "elenda-the-dusk-rose",
  "ghave-guru-of-spores",
  "breya-etherium-shaper",
  "karlov-of-the-ghost-council",
  "niv-mizzet-parun",
  "aurelia-the-warleader",
  "ezuri-claw-of-progress",
  "karador-ghost-chieftain",
  "sliver-overlord",
  "grenzo-dungeon-warden",
  "derevi-empyrial-tactician",
  "brago-king-eternal",
  "selvala-heart-of-the-wilds",
  "rashmi-eternities-crafter",
  "zacama-primal-calamity",
  "meren-of-clan-nel-toth",
  "maelstrom-wanderer",
  "queen-marchesa",
  "locust-god",
  "scarab-god",
  "purphoros-god-of-the-forge",
  "krark-the-thumbless",
  "sakashima-of-a-thousand-faces",
  "tevesh-szat-doom-of-fools",
  "vial-smasher-the-fierce",
  "rograkh-son-of-rohgahh",
  "ardenn-intrepid-archaeologist",
  "jeska-thrice-reborn",
  "kodama-of-the-east-tree",
  "tormod-the-desecrator",
  "malcolm-keen-eyed-navigator",
  "brallin-skyshark-rider",
  "shabraz-the-skyshark",
  "kess-dissident-mage",
  "reyhan-last-of-the-abzan",
  "ishai-ojutai-dragonspeaker",
  "ikra-shidiqi-the-usurper",
  "tana-the-bloodsower",
  "bruse-tarl-boorish-herder",
  "silas-renn-seeker-adept",
  "akiri-line-slinger",
  "ludevic-necro-alchemist",
  "ravos-soultender",
  "kraum-ludevics-opus",
  "kydele-chosen-of-kruphix",
  "sidar-kondo-of-jamuraa",
  "reyav-master-smith",
  "yshtola-nights-blessed",
  "the-wise-mothman",
  "ms-bumbleflower",
  "ulalek-fused-atrocity",
  "vivi-ornitier",
  "teval-the-balanced-scale",
  "baylen-the-haymaker",
  "hakbal-of-the-surging-soul",
  "valgavoth-harrower-of-souls",
  "esika-god-of-the-tree",
  "the-necrobloom",
  "frodo-adventurous-hobbit-sam-loyal-attendant",
  "mr-house-president-and-ceo",
  "voja-jaws-of-the-conclave",
  "aragorn-the-uniter",
  "zhulodok-void-gorger",
  "bello-bard-of-the-brambles",
  "rin-and-seri-inseparable",
  "caesar-legions-emperor",
  "shorikai-genesis-engine",
  "hashaton-scarabs-fist",
  "flubs-the-fool",
  "go-shintai-of-lifes-origin",
  "ghyrson-starn-kelermorph",
  "obeka-splitter-of-seconds",
  "krrik-son-of-yawgmoth",
  "kefka-court-mage",
  "tom-bombadil",
  "oloro-ageless-ascetic",
  "sephiroth-fabled-soldier",
  "ygra-eater-of-all",
  "glarb-calamitys-augur",
  "eriette-of-the-charmed-apple",
  "atla-palani-nest-tender",
  "cloud-ex-soldier",
  "xyris-the-writhing-storm",
  "fire-lord-azula",
  "henzie-toolbox-torre",
  "ezio-auditore-da-firenze",
  "sidar-jabari-of-zhalfir",
  "zaxara-the-exemplary",
  "arabella-abandoned-doll",
  "atraxa-grand-unifier",
  "urza-chief-artificer",
  "captain-nghathrod",
  "hearthhull-the-worldseed",
  "urtet-remnant-of-memnarch",
  "toph-the-first-metalbender",
  "alela-cunning-conqueror",
  "zinnia-valleys-voice",
  "marneus-calgar",
  "alela-artful-provocateur",
  "stella-lee-wild-card",
  "helga-skittish-seer",
  "galadriel-light-of-valinor",
  "aesi-tyrant-of-gyre-strait",
  "aminatou-veil-piercer",
  "belakor-the-dark-master",
  "tovolar-dire-overlord",
  "omnath-locus-of-all",
  "zurgo-stormrender",
  "satya-aetherflux-genius",
  "fynn-the-fangbearer",
  "kotis-the-fangkeeper",
  "etali-primal-conqueror",
  "ureni-of-the-unwritten",
  "avatar-aang",
  "iroh-grand-lotus",
  "jin-sakai-ghost-of-tsushima",
  "atreus-impulsive-son-kratos-stoic-father",
  "fire-lord-zuko",
  "kuja-genome-sorcerer",
  "sokka-tenacious-tactician",
  "tidus-yunas-guardian",
  "terra-herald-of-hope",
  "aloy-savior-of-meridian",
  "choco-seeker-of-paradise",
  "felothar-the-steadfast",
  "katara-the-fearless",
  "kilo-apogee-mind",
  "terra-magical-adept",
  "ragost-deft-gastronaut",
  "kratos-god-of-war",
  "betor-ancestors-voice",
  "the-wandering-minstrel",
  "ozai-the-phoenix-king",
  "tifa-lockhart",
  "eshki-temurs-roar",
  "hope-estheim",
  "aang-at-the-crossroads",
  "cosmic-spider-man",
  "eddie-brock",
  "the-destined-warrior",
  "lightning-army-of-one",
  "norman-osborn",
  "hei-bai-forest-guardian",
  "high-perfect-morcant",
  "toph-hardheaded-teacher"]
/-- `main` (lines 343-353) restricted to its pure data path: take the
first `limit` seed identifiers, run the aggregator against the remote
service `fetchFn`, and sort the result for the output document. -/
def mainCommanders (fetchFn : String → Option Json) (limit : Nat) : List Record :=
  sortCommanders (fetch_all_commanders fetchFn (TOP_COMMANDERS.take limit))

/-! ## Statement helpers -/

/-- The element sequence the deck loop iterates over, for payloads on
which extraction does not raise ( `[]` on the raising paths, which the
theorems exclude via `extract_commander_info … = some _`). -/
def deckElems (data : Json) : List Json :=
  match data with
  | Json.obj kvs =>
    match iterElems ((lookupKV kvs "deck").getD (Json.arr [])) with
    | Except.ok es => es
    | Except.error _ => []
  | _ => []

/-- The line has a first space and its prefix is a non-empty run of `'0'`
digits, i.e. a digit prefix whose decimal value is zero. -/
def zeroDigitPrefixed (s : List Char) : Bool :=
  match splitFirstSpace s with
  | (p0, some _) => !p0.isEmpty && p0.all (· = '0')
  | (_, none) => false

/-- Names of the entries of one grouped cardlist (spec model, see
`specFallbackCards`). -/
def entryNames (cl : Json) : List (List Char) :=
  match cl with
  | Json.arr entries =>
    entries.filterMap (fun e =>
      match e with
      | Json.obj kvs =>
        match lookupKV kvs "name" with
        | some (Json.str s) => some s
        | _ => none
      | _ => none)
  | _ => []

/-- Modelled from the spec: the grouped-cardlists fallback the design
describes for a detail payload without the flat `deck` line list — absent
from `src/scripts/fetch-edhrec-data.py` — as "an aggregate of all named
entries grouped into the payload's cardlists, deduplicated into a set and
capped at a maximum of 99 sorted entries", each with quantity 1.  The
grouping shape is modelled as a `cardlists` array (next to `card` in
`json_dict`) of lists of named entries. -/
def specFallbackCards (data : Json) : List Item :=
  let cardlists : List Json :=
    match jget data "container" (Json.obj []) with
    | Except.ok c =>
      match jget c "json_dict" (Json.obj []) with
      | Except.ok jd =>
        match jget jd "cardlists" (Json.arr []) with
        | Except.ok (Json.arr ls) => ls
        | _ => []
      | _ => []
    | _ => []
  let names := ((cardlists.map entryNames).flatten).dedup
  ((isortLe lexLe names).take 99).map (fun n => ⟨n, 1⟩)

/-! ## Parser lemmas -/

theorem splitFirstSpace_append (pre post : List Char) (h : ' ' ∉ pre) :
    splitFirstSpace (pre ++ ' ' :: post) = (pre, some post) := by
  induction pre with
  | nil => simp [splitFirstSpace]
  | cons c cs ih =>
    have hc : c ≠ ' ' := fun hc => h (by simp [hc])
    have hcs : ' ' ∉ cs := fun hm => h (List.mem_cons_of_mem _ hm)
    simp [splitFirstSpace, hc, ih hcs]

theorem splitFirstSpace_some (s p0 p1 : List Char)
    (h : splitFirstSpace s = (p0, some p1)) : s = p0 ++ ' ' :: p1 ∧ ' ' ∉ p0 := by
  induction s generalizing p0 with
  | nil => simp [splitFirstSpace] at h
  | cons c cs ih =>
    by_cases hc : c = ' '
    · simp [splitFirstSpace, hc] at h
      simp [hc, h.1, h.2]
    · rw [show splitFirstSpace (c :: cs)
          = (c :: (splitFirstSpace cs).1, (splitFirstSpace cs).2) by
            simp [splitFirstSpace, hc], Prod.mk.injEq] at h
      obtain ⟨h1, h2⟩ := h
      have hq : splitFirstSpace cs = ((splitFirstSpace cs).1, some p1) := by
        rw [← h2]
      obtain ⟨hs, hmem⟩ := ih (splitFirstSpace cs).1 hq
      subst h1
      refine ⟨by rw [List.cons_append, ← hs], ?_⟩
      intro hm
      rcases List.mem_cons.mp hm with h' | h'
      · exact hc h'.symm
      · exact hmem h'

/-- C1: for every input line "<N> <name>" whose prefix before the first
space is a non-empty decimal digit sequence N, `parse_deck_entry` returns
(name, N as an integer), where name is everything after the first space;
for every other input line it returns (whole line, 1). -/
theorem C1_entry_parsing (s : List Char) :
    (∀ pre post, s = pre ++ ' ' :: post → ' ' ∉ pre → pre ≠ [] →
        (∀ c ∈ pre, c.isDigit) →
        parse_deck_entry s = (post, natOfDigits pre))
    ∧ ((∀ pre post, s = pre ++ ' ' :: post → ' ' ∉ pre →
          ¬(pre ≠ [] ∧ ∀ c ∈ pre, c.isDigit)) →
        parse_deck_entry s = (s, 1)) := by
  constructor
  · intro pre post hs hsp hne hdig
    have hsp2 : splitFirstSpace s = (pre, some post) := by
      rw [hs]; exact splitFirstSpace_append pre post hsp
    simp only [parse_deck_entry, hsp2]
    rw [if_pos ⟨hne, List.all_eq_true.mpr (fun c hc => hdig c hc)⟩]
  · intro h
    rcases hsp : splitFirstSpace s with ⟨p0, op⟩
    cases op with
    | none => simp only [parse_deck_entry, hsp]
    | some p1 =>
      obtain ⟨hs, hmem⟩ := splitFirstSpace_some s p0 p1 hsp
      have hnd := h p0 p1 hs hmem
      simp only [parse_deck_entry, hsp]
      rw [if_neg]
      intro ⟨hne, hall⟩
      exact hnd ⟨hne, fun c hc => List.all_eq_true.mp hall c hc⟩

theorem C1_entry_parsing_witness :
    parse_deck_entry "29 Mountain".toList = ("Mountain".toList, 29)
    ∧ parse_deck_entry "Sol Ring".toList = ("Sol Ring".toList, 1) := by
  constructor
  · have h := (C1_entry_parsing "29 Mountain".toList).1 ['2', '9'] "Mountain".toList
      (by decide) (by decide) (by decide) (by decide)
    rw [h]; decide
  · apply (C1_entry_parsing "Sol Ring".toList).2
    intro pre post heq hsp
    have hdet : splitFirstSpace "Sol Ring".toList = (pre, some post) := by
      rw [heq]; exact splitFirstSpace_append pre post hsp
    have hcomp : splitFirstSpace "Sol Ring".toList
        = (['S', 'o', 'l'], some ['R', 'i', 'n', 'g']) := by decide
    have hpre : pre = ['S', 'o', 'l'] :=
      congrArg Prod.fst (hdet.symm.trans hcomp)
    intro ⟨_, hall⟩
    have := hall 'S' (by rw [hpre]; simp)
    exact absurd this (by decide)

/-! ## Color canonicalization lemmas -/

theorem any_jsonEqStr (raw : List Json) (c : List Char) :
    raw.any (fun j => jsonEqStr j c) = true ↔ Json.str c ∈ raw := by
  rw [List.any_eq_true]
  constructor
  · rintro ⟨j, hj, heq⟩
    cases j with
    | str s =>
      have : s = c := by simpa [jsonEqStr] using heq
      exact this ▸ hj
    | null => simp [jsonEqStr] at heq
    | bool b => simp [jsonEqStr] at heq
    | num n => simp [jsonEqStr] at heq
    | arr xs => simp [jsonEqStr] at heq
    | obj kvs => simp [jsonEqStr] at heq
  · intro hmem
    exact ⟨Json.str c, hmem, by simp [jsonEqStr]⟩

/-- C6: identity-tag canonicalization is idempotent, and for every raw tag
list it returns exactly the symbols of the fixed alphabet present in the
raw list (extraneous values filtered out), ordered by the fixed canonical
sequence W, U, B, R, G, with no padding for absent symbols. -/
theorem C6_color_canonicalization (raw : List Json) :
    canonicalizeColors ((canonicalizeColors raw).map Json.str) = canonicalizeColors raw
    ∧ List.Sublist (canonicalizeColors raw) color_order
    ∧ ∀ c, c ∈ canonicalizeColors raw ↔ c ∈ color_order ∧ Json.str c ∈ raw := by
  refine ⟨?_, List.filter_sublist _, ?_⟩
  · apply List.filter_congr
    intro c hco
    rw [Bool.eq_iff_iff, any_jsonEqStr, any_jsonEqStr, List.mem_map]
    constructor
    · rintro ⟨c', hc', heq⟩
      have hcc : c' = c := by injection heq
      rw [hcc] at hc'
      simp only [canonicalizeColors] at hc'
      exact (any_jsonEqStr raw c).mp (List.mem_filter.mp hc').2
    · intro hc
      exact ⟨c, List.mem_filter.mpr ⟨hco, (any_jsonEqStr raw c).mpr hc⟩, rfl⟩
  · intro c
    rw [canonicalizeColors, List.mem_filter, any_jsonEqStr]

theorem C6_color_canonicalization_witness :
    canonicalizeColors
        ((canonicalizeColors [Json.str ['G'], Json.str ['W'], Json.num 3]).map Json.str)
      = canonicalizeColors [Json.str ['G'], Json.str ['W'], Json.num 3]
    ∧ canonicalizeColors [Json.str ['G'], Json.str ['W'], Json.num 3] = [['W'], ['G']] :=
  ⟨(C6_color_canonicalization _).1, by decide⟩

/-! ## Insertion-sort lemmas -/

theorem mem_insertLe (le : α → α → Bool) (a y : α) (l : List α) :
    y ∈ insertLe le a l ↔ y = a ∨ y ∈ l := by
  induction l with
  | nil => simp [insertLe]
  | cons x xs ih =>
    by_cases hx : le a x = true
    · simp [insertLe, hx]
    · simp only [insertLe, if_neg hx, List.mem_cons, ih]
      tauto

theorem pairwise_insertLe (le : α → α → Bool)
    (htot : ∀ a b, le a b = true ∨ le b a = true)
    (htrans : ∀ a b c, le a b = true → le b c = true → le a c = true)
    (a : α) (l : List α) (h : l.Pairwise (fun x y => le x y = true)) :
    (insertLe le a l).Pairwise (fun x y => le x y = true) := by
  induction l with
  | nil => simp [insertLe]
  | cons x xs ih =>
    rcases List.pairwise_cons.mp h with ⟨hx, hxs⟩
    by_cases hax : le a x = true
    · rw [insertLe, if_pos hax]
      refine List.pairwise_cons.mpr ⟨?_, h⟩
      intro y hy
      rcases List.mem_cons.mp hy with hy | hy
      · exact hy ▸ hax
      · exact htrans a x y hax (hx y hy)
    · rw [insertLe, if_neg hax]
      refine List.pairwise_cons.mpr ⟨?_, ih hxs⟩
      intro y hy
      rcases (mem_insertLe le a y xs).mp hy with hy | hy
      · rcases htot a x with h' | h'
        · exact absurd h' hax
        · exact hy ▸ h'
      · exact hx y hy

theorem pairwise_isortLe (le : α → α → Bool)
    (htot : ∀ a b, le a b = true ∨ le b a = true)
    (htrans : ∀ a b c, le a b = true → le b c = true → le a c = true)
    (l : List α) : (isortLe le l).Pairwise (fun x y => le x y = true) := by
  induction l with
  | nil => exact List.Pairwise.nil
  | cons x xs ih => exact pairwise_insertLe le htot htrans x (isortLe le xs) ih

theorem perm_insertLe (le : α → α → Bool) (a : α) (l : List α) :
    List.Perm (insertLe le a l) (a :: l) := by
  induction l with
  | nil => simp [insertLe]
  | cons x xs ih =>
    by_cases hx : le a x = true
    · rw [insertLe, if_pos hx]
    · rw [insertLe, if_neg hx]
      exact (List.Perm.cons x ih).trans (List.Perm.swap a x xs)

theorem perm_isortLe (le : α → α → Bool) (l : List α) :
    List.Perm (isortLe le l) l := by
  induction l with
  | nil => exact List.Perm.refl []
  | cons x xs ih =>
    exact ((perm_insertLe le x (isortLe le xs)).trans (List.Perm.cons x ih))

theorem filter_insertLe_pos (le : α → α → Bool) (p : α → Bool) (a : α) (l : List α)
    (hp : p a = true) (hle : ∀ x, p x = true → le a x = true) :
    (insertLe le a l).filter p = a :: l.filter p := by
  induction l with
  | nil => simp [insertLe, hp]
  | cons x xs ih =>
    by_cases hx : le a x = true
    · rw [insertLe, if_pos hx, List.filter_cons, if_pos hp]
    · have hpx : p x = false := by
        cases h' : p x with
        | true => exact absurd (hle x h') hx
        | false => rfl
      rw [insertLe, if_neg hx, List.filter_cons, if_neg (by simp [hpx]),
        List.filter_cons, if_neg (by simp [hpx]), ih]

theorem filter_insertLe_neg (le : α → α → Bool) (p : α → Bool) (a : α) (l : List α)
    (hp : p a = false) : (insertLe le a l).filter p = l.filter p := by
  induction l with
  | nil => simp [insertLe, hp]
  | cons x xs ih =>
    by_cases hx : le a x = true
    · rw [insertLe, if_pos hx, List.filter_cons, if_neg (by simp [hp])]
    · rw [insertLe, if_neg hx, List.filter_cons, ih, List.filter_cons]

/-- C5: the output document's record sequence is sorted in descending
order of `numDecks`, and records with equal `numDecks` keep their
original fetch order (the stable filter characterization: for every key,
the equal-key subsequence is unchanged by the sort). -/
theorem C5_sorted_stable (cs : List Record) :
    (sortCommanders cs).Pairwise (fun a b => b.numDecks ≤ a.numDecks)
    ∧ ∀ k : Int, (sortCommanders cs).filter (fun r => r.numDecks == k)
        = cs.filter (fun r => r.numDecks == k) := by
  constructor
  · have h := pairwise_isortLe (fun a b : Record => decide (b.numDecks ≤ a.numDecks))
      (fun a b => by
        rcases le_total b.numDecks a.numDecks with h | h
        · exact Or.inl (by simpa using h)
        · exact Or.inr (by simpa using h))
      (fun a b c h1 h2 => by
        simp only [decide_eq_true_eq] at h1 h2 ⊢
        exact le_trans h2 h1)
      cs
    exact h.imp (fun h' => by simpa using h')
  · intro k
    rw [sortCommanders]
    induction cs with
    | nil => rfl
    | cons c cs ih =>
      show List.filter _ (insertLe _ c (isortLe _ cs)) = _
      cases hc : (c.numDecks == k) with
      | true =>
        rw [filter_insertLe_pos (fun a b : Record => decide (b.numDecks ≤ a.numDecks))
            (fun r => r.numDecks == k) c
            (isortLe (fun a b : Record => decide (b.numDecks ≤ a.numDecks)) cs) hc
            (fun x hx => by
              simp only [beq_iff_eq] at hc hx
              simp [hx, hc]),
          ih, List.filter_cons, if_pos hc]
      | false =>
        rw [filter_insertLe_neg (fun a b : Record => decide (b.numDecks ≤ a.numDecks))
            (fun r => r.numDecks == k) c
            (isortLe (fun a b : Record => decide (b.numDecks ≤ a.numDecks)) cs) hc,
          ih, List.filter_cons, if_neg (by simp [hc])]

/-- A record with popularity 5, for concrete checks. -/
def recA : Record := ⟨Json.null, "ra", [], 5, []⟩

/-- A record with popularity 7, for concrete checks. -/
def recB : Record := ⟨Json.null, "rb", [], 7, []⟩

theorem C5_sorted_stable_witness :
    (sortCommanders [recA, recB]).Pairwise (fun a b => b.numDecks ≤ a.numDecks)
    ∧ (sortCommanders [recA, recB]).filter (fun r => r.numDecks == 5)
        = [recA, recB].filter (fun r => r.numDecks == 5) :=
  ⟨(C5_sorted_stable [recA, recB]).1, (C5_sorted_stable [recA, recB]).2 5⟩

/-! ## Aggregator lemmas -/

theorem length_filterMap_add_failures (f : α → Option β) (l : List α) :
    (l.filterMap f).length + (l.filter (fun a => (f a).isNone)).length = l.length := by
  induction l with
  | nil => rfl
  | cons a l ih =>
    cases hf : f a with
    | none => simp [List.filterMap_cons, List.filter_cons, hf]; omega
    | some b => simp [List.filterMap_cons, List.filter_cons, hf]; omega

theorem toOption_eq_some (e : Except EErr Record) (r : Record) :
    e.toOption = some r ↔ e = Except.ok r := by
  cases e <;> simp [Except.toOption]

theorem extract_slug (data : Json) (slug : String) (r : Record)
    (h : extract_commander_info data slug = some r) : r.slug = slug := by
  rw [extract_commander_info, toOption_eq_some] at h
  simp only [extractE] at h
  cases hc : cardOfE data with
  | error e => simp only [hc] at h; exact Except.noConfusion h
  | ok card =>
  simp only [hc] at h
  cases hn : jget card "name" (Json.str []) with
  | error e => simp only [hn] at h; exact Except.noConfusion h
  | ok name =>
  simp only [hn] at h
  by_cases hf : jsonFalsy name = true
  · simp only [if_pos hf] at h; exact Except.noConfusion h
  · simp only [if_neg hf] at h
    cases hrc : jget card "color_identity" (Json.arr []) with
    | error e => simp only [hrc] at h; exact Except.noConfusion h
    | ok rawColors =>
    simp only [hrc] at h
    cases hcc : canonColorsE rawColors with
    | error e => simp only [hcc] at h; exact Except.noConfusion h
    | ok ci =>
    simp only [hcc] at h
    cases hd : jget data "deck" (Json.arr []) with
    | error e => simp only [hd] at h; exact Except.noConfusion h
    | ok deckJ =>
    simp only [hd] at h
    cases hie : iterElems deckJ with
    | error e => simp only [hie] at h; exact Except.noConfusion h
    | ok entries =>
    simp only [hie] at h
    cases hbc : buildCards name entries with
    | error e => simp only [hbc] at h; exact Except.noConfusion h
    | ok cardList =>
    simp only [hbc, Except.ok.injEq] at h
    rw [← h]

theorem processSlug_slug (fetchFn : String → Option Json) (slug : String) (r : Record)
    (h : processSlug fetchFn slug = some r) : r.slug = slug := by
  unfold processSlug at h
  split at h
  · exact absurd h (by simp)
  · split at h
    · exact absurd h (by simp)
    · exact extract_slug _ _ _ h

theorem fetchAll_slugs_sublist (fetchFn : String → Option Json) (slugs : List String) :
    List.Sublist ((fetch_all_commanders fetchFn slugs).map (fun r => r.slug)) slugs := by
  induction slugs with
  | nil => simp [fetch_all_commanders]
  | cons s rest ih =>
    rw [fetch_all_commanders, List.filterMap_cons]
    cases hp : processSlug fetchFn s with
    | none => exact List.Sublist.cons s ih
    | some r =>
      rw [List.map_cons, processSlug_slug fetchFn s r hp]
      exact List.Sublist.cons₂ s ih

/-- C4: over any run, the aggregator (a total function — it never raises)
produces exactly N−K records when K of the N per-identifier fetch-or-
extract steps fail; each failed identifier is absent from the result and
every successful one is present. -/
theorem C4_aggregator_isolation (fetchFn : String → Option Json) (slugs : List String) :
    (fetch_all_commanders fetchFn slugs).length
        + (slugs.filter (fun s => (processSlug fetchFn s).isNone)).length
      = slugs.length
    ∧ (∀ s ∈ slugs, processSlug fetchFn s = none →
        ∀ r ∈ fetch_all_commanders fetchFn slugs, r.slug ≠ s)
    ∧ (∀ s ∈ slugs, ∀ r, processSlug fetchFn s = some r →
        r ∈ fetch_all_commanders fetchFn slugs) := by
  refine ⟨length_filterMap_add_failures _ _, ?_, ?_⟩
  · intro s _ hnone r hr heq
    obtain ⟨s', hs', hp⟩ := List.mem_filterMap.mp hr
    have hss : s' = s := (processSlug_slug fetchFn s' r hp) ▸ heq
    rw [hss] at hp
    rw [hnone] at hp
    exact Option.noConfusion hp
  · intro s hs r hp
    exact List.mem_filterMap.mpr ⟨s, hs, hp⟩

/-- The detail payload of the spec's end-to-end example. -/
def samplePayload : Json :=
  Json.obj [("container", Json.obj [("json_dict", Json.obj [("card",
    Json.obj [("name", Json.str "Alpha".toList),
              ("color_identity", Json.arr [Json.str "U".toList, Json.str "W".toList]),
              ("num_decks", Json.num 10)])])]),
    ("deck", Json.arr [Json.str "1 Sword".toList, Json.str "2 Forest".toList,
      Json.str "1 Alpha".toList])]

/-- The record `extract_commander_info` produces from `samplePayload`. -/
def sampleRecord : Record :=
  ⟨Json.str "Alpha".toList, "alpha", [['W'], ['U']], 10,
    [⟨"Sword".toList, 1⟩, ⟨"Forest".toList, 2⟩]⟩

/-- A stub remote service: `alpha` resolves, everything else fails. -/
def fetchStub : String → Option Json :=
  fun s => if s = "alpha" then some samplePayload else none

theorem C4_aggregator_isolation_witness :
    (fetch_all_commanders fetchStub ["alpha", "beta"]).length
        + (["alpha", "beta"].filter
            (fun s => (processSlug fetchStub s).isNone)).length = 2
    ∧ sampleRecord ∈ fetch_all_commanders fetchStub ["alpha", "beta"] :=
  ⟨(C4_aggregator_isolation fetchStub ["alpha", "beta"]).1,
   (C4_aggregator_isolation fetchStub ["alpha", "beta"]).2.2 "alpha"
     (List.mem_cons_self "alpha" ["beta"]) sampleRecord rfl⟩

/-- C9: every record carries as `slug` exactly the identifier it was
fetched under, so the slugs of the aggregator's output form a
subsequence of the input identifier sequence. -/
theorem C9_slug_passthrough :
    (∀ (data : Json) (slug : String) (r : Record),
        extract_commander_info data slug = some r → r.slug = slug)
    ∧ ∀ (fetchFn : String → Option Json) (slugs : List String),
        List.Sublist ((fetch_all_commanders fetchFn slugs).map (fun r => r.slug))
          slugs :=
  ⟨extract_slug, fetchAll_slugs_sublist⟩

theorem C9_slug_passthrough_witness :
    sampleRecord.slug = "alpha"
    ∧ List.Sublist
        ((fetch_all_commanders fetchStub ["alpha", "beta"]).map (fun r => r.slug))
        ["alpha", "beta"] :=
  ⟨C9_slug_passthrough.1 samplePayload "alpha" sampleRecord rfl,
   C9_slug_passthrough.2 fetchStub ["alpha", "beta"]⟩

set_option maxRecDepth 10000 in
/-- C10: the module-level seed list contains no duplicate slug, so every
run over a prefix of it yields an output document whose records have
pairwise distinct slugs. -/
theorem C10_unique_slugs :
    TOP_COMMANDERS.Nodup
    ∧ ∀ (fetchFn : String → Option Json) (limit : Nat),
        ((mainCommanders fetchFn limit).map (fun r => r.slug)).Nodup := by
  have hnd : TOP_COMMANDERS.Nodup := by decide
  refine ⟨hnd, ?_⟩
  intro fetchFn limit
  have htake : (TOP_COMMANDERS.take limit).Nodup :=
    List.Nodup.sublist (List.take_sublist limit TOP_COMMANDERS) hnd
  have hfetch :
      ((fetch_all_commanders fetchFn (TOP_COMMANDERS.take limit)).map
        (fun r => r.slug)).Nodup :=
    List.Nodup.sublist (fetchAll_slugs_sublist fetchFn (TOP_COMMANDERS.take limit))
      htake
  have hperm :
      List.Perm
        ((mainCommanders fetchFn limit).map (fun r => r.slug))
        ((fetch_all_commanders fetchFn (TOP_COMMANDERS.take limit)).map
          (fun r => r.slug)) :=
    List.Perm.map _ (perm_isortLe _ _)
  exact (List.Perm.nodup_iff hperm).mpr hfetch

/-- Inversion: a successful extraction pins down every intermediate step
of `extract_commander_info`'s navigation. -/
theorem extractE_ok_inversion (data : Json) (slug : String) (r : Record)
    (h : extractE data slug = Except.ok r) :
    ∃ card rawColors deckJ entries,
      cardOfE data = Except.ok card
      ∧ jget card "name" (Json.str []) = Except.ok r.name
      ∧ jsonFalsy r.name = false
      ∧ jget card "color_identity" (Json.arr []) = Except.ok rawColors
      ∧ canonColorsE rawColors = Except.ok r.colorIdentity
      ∧ jget data "deck" (Json.arr []) = Except.ok deckJ
      ∧ iterElems deckJ = Except.ok entries
      ∧ buildCards r.name entries = Except.ok r.cards
      ∧ r.slug = slug := by
  simp only [extractE] at h
  cases hc : cardOfE data with
  | error e => simp only [hc] at h; exact Except.noConfusion h
  | ok card =>
  simp only [hc] at h
  cases hn : jget card "name" (Json.str []) with
  | error e => simp only [hn] at h; exact Except.noConfusion h
  | ok name =>
  simp only [hn] at h
  by_cases hf : jsonFalsy name = true
  · simp only [if_pos hf] at h; exact Except.noConfusion h
  · simp only [if_neg hf] at h
    cases hrc : jget card "color_identity" (Json.arr []) with
    | error e => simp only [hrc] at h; exact Except.noConfusion h
    | ok rawColors =>
    simp only [hrc] at h
    cases hcc : canonColorsE rawColors with
    | error e => simp only [hcc] at h; exact Except.noConfusion h
    | ok ci =>
    simp only [hcc] at h
    cases hd : jget data "deck" (Json.arr []) with
    | error e => simp only [hd] at h; exact Except.noConfusion h
    | ok deckJ =>
    simp only [hd] at h
    cases hie : iterElems deckJ with
    | error e => simp only [hie] at h; exact Except.noConfusion h
    | ok entries =>
    simp only [hie] at h
    cases hbc : buildCards name entries with
    | error e => simp only [hbc] at h; exact Except.noConfusion h
    | ok cardList =>
    simp only [hbc, Except.ok.injEq] at h
    subst h
    exact ⟨card, rawColors, deckJ, entries, rfl, hn,
      by simpa using hf, hrc, hcc, rfl, hie, hbc, rfl⟩

/-- C7: an extraction with a missing or empty (falsy) resolved name yields
no record, any error raised during navigation is caught and yields no
record rather than propagating (`extract_commander_info` is total with
`Option` result), and every produced record has a non-falsy name. -/
theorem C7_extraction_failure (data : Json) (slug : String) :
    (∀ n, nameOfE data = Except.ok n → jsonFalsy n = true →
        extract_commander_info data slug = none)
    ∧ (∀ e, extractE data slug = Except.error e →
        extract_commander_info data slug = none)
    ∧ (∀ r, extract_commander_info data slug = some r →
        jsonFalsy r.name = false) := by
  refine ⟨?_, ?_, ?_⟩
  · intro n h hf
    rw [extract_commander_info]
    cases hc : cardOfE data with
    | error e => simp [extractE, hc, Except.toOption]
    | ok card =>
      simp only [nameOfE, hc] at h
      simp [extractE, hc, h, hf, Except.toOption]
  · intro e h
    rw [extract_commander_info, h]
    rfl
  · intro r h
    rw [extract_commander_info, toOption_eq_some] at h
    obtain ⟨_, _, _, _, _, _, hfalsy, _⟩ := extractE_ok_inversion data slug r h
    exact hfalsy

/-- A structurally broken payload: the `deck` field is a number, so the
deck loop raises, and the error is caught. -/
def badDeckPayload : Json :=
  Json.obj [("container", Json.obj [("json_dict", Json.obj [("card",
    Json.obj [("name", Json.str "Alpha".toList)])])]), ("deck", Json.num 3)]

theorem C7_extraction_failure_witness :
    extract_commander_info (Json.obj []) "x" = none
    ∧ extract_commander_info badDeckPayload "x" = none :=
  ⟨(C7_extraction_failure (Json.obj []) "x").1 (Json.str []) rfl rfl,
   (C7_extraction_failure badDeckPayload "x").2.1 EErr.typeError rfl⟩

/-- On a flat list of text lines the deck loop is a filter-map: parse each
line, drop the commander's own line (case-insensitive), keep the rest. -/
theorem buildCards_str (s : List Char) (lines : List (List Char)) :
    buildCards (Json.str s) (lines.map Json.str)
      = Except.ok (lines.filterMap (fun l =>
          if lowerStr (parse_deck_entry l).1 = lowerStr s then none
          else some ⟨(parse_deck_entry l).1, (parse_deck_entry l).2⟩)) := by
  induction lines with
  | nil => rfl
  | cons l rest ih =>
    rw [List.map_cons, List.filterMap_cons]
    simp only [buildCards, jsonLower, ih]
    by_cases hcmp : lowerStr (parse_deck_entry l).1 = lowerStr s
    · simp [hcmp]
    · simp [hcmp]

/-- C8: when a payload resolves to a non-empty string commander name and
its `deck` field is a flat list of text lines, every parsed line whose
name equals the commander's name case-insensitively is excluded from the
produced record's cards, and every other parsed line is included, in the
payload's order. -/
theorem C8_commander_line_excluded (data : Json) (slug : String) (s : List Char)
    (lines : List (List Char)) (r : Record)
    (hname : nameOfE data = Except.ok (Json.str s))
    (hdeck : jget data "deck" (Json.arr []) = Except.ok (Json.arr (lines.map Json.str)))
    (h : extract_commander_info data slug = some r) :
    r.cards = lines.filterMap (fun l =>
      if lowerStr (parse_deck_entry l).1 = lowerStr s then none
      else some ⟨(parse_deck_entry l).1, (parse_deck_entry l).2⟩) := by
  rw [extract_commander_info, toOption_eq_some] at h
  obtain ⟨card, rawColors, deckJ, entries, hc, hn, _, _, _, hd, hie, hbc, _⟩ :=
    extractE_ok_inversion data slug r h
  have hrname : r.name = Json.str s := by
    have h1 : nameOfE data = Except.ok r.name := by rw [nameOfE, hc]; exact hn
    have h2 := h1.symm.trans hname
    injection h2
  have hdj : deckJ = Json.arr (lines.map Json.str) := by
    have h2 := hd.symm.trans hdeck
    injection h2
  rw [hdj] at hie
  have hent : entries = lines.map Json.str := by
    simp only [iterElems, Except.ok.injEq] at hie
    exact hie.symm
  rw [hrname, hent, buildCards_str] at hbc
  injection hbc with hbc
  exact hbc.symm

theorem C8_commander_line_excluded_witness :
    sampleRecord.cards
      = (["1 Sword".toList, "2 Forest".toList, "1 Alpha".toList].filterMap
          (fun l =>
            if lowerStr (parse_deck_entry l).1 = lowerStr "Alpha".toList then none
            else some ⟨(parse_deck_entry l).1, (parse_deck_entry l).2⟩)) :=
  C8_commander_line_excluded samplePayload "alpha" "Alpha".toList
    ["1 Sword".toList, "2 Forest".toList, "1 Alpha".toList] sampleRecord
    rfl rfl rfl

/-! ## Quantity lemmas -/

theorem digit_sub_eq_zero_iff (c : Char) (h1 : c.isDigit = true) :
    c.toNat - 48 = 0 ↔ c = '0' := by
  constructor
  · intro h2
    simp only [Char.isDigit, Bool.and_eq_true, decide_eq_true_eq] at h1
    have hlo : (48 : Nat) ≤ c.toNat := h1.1
    have : c.toNat = 48 := by omega
    exact Char.eq_of_val_eq (UInt32.toNat.inj (by simpa using this))
  · intro h2
    subst h2
    rfl

theorem natOfDigits_foldl_zero (s : List Char) (a : Nat)
    (hdig : ∀ c ∈ s, c.isDigit = true) :
    (s.foldl (fun a c => 10 * a + (c.toNat - 48)) a = 0)
      ↔ (a = 0 ∧ ∀ c ∈ s, c = '0') := by
  induction s generalizing a with
  | nil => simp
  | cons c cs ih =>
    rw [List.foldl_cons,
      ih _ (fun x hx => hdig x (List.mem_cons_of_mem _ hx))]
    have hd := digit_sub_eq_zero_iff c (hdig c (List.mem_cons_self c cs))
    constructor
    · rintro ⟨h1, h2⟩
      have ha : a = 0 := by omega
      have hc0 : c.toNat - 48 = 0 := by omega
      refine ⟨ha, fun x hx => ?_⟩
      rcases List.mem_cons.mp hx with hx | hx
      · exact hx ▸ hd.mp hc0
      · exact h2 x hx
    · rintro ⟨ha, hall⟩
      have hc0 := hd.mpr (hall c (List.mem_cons_self c cs))
      refine ⟨by omega, fun x hx => hall x (List.mem_cons_of_mem _ hx)⟩

/-- The parsed quantity is positive except exactly when the line carries a
digit prefix whose decimal value is zero. -/
theorem parse_quantity_pos (s : List Char) :
    1 ≤ (parse_deck_entry s).2 ∨
      ((parse_deck_entry s).2 = 0 ∧ zeroDigitPrefixed s = true) := by
  rcases hsp : splitFirstSpace s with ⟨p0, op⟩
  cases op with
  | none => left; simp [parse_deck_entry, hsp]
  | some p1 =>
    simp only [parse_deck_entry, hsp]
    by_cases hcond : p0 ≠ [] ∧ p0.all Char.isDigit = true
    · rw [if_pos hcond]
      rcases Nat.eq_zero_or_pos (natOfDigits p0) with h0 | hpos
      · right
        refine ⟨h0, ?_⟩
        have hall : ∀ c ∈ p0, c = '0' :=
          ((natOfDigits_foldl_zero p0 0
            (fun c hc => List.all_eq_true.mp hcond.2 c hc)).mp h0).2
        rw [zeroDigitPrefixed, hsp]
        simp only [Bool.and_eq_true, Bool.not_eq_true', List.all_eq_true,
          decide_eq_true_eq]
        exact ⟨by simpa using hcond.1, hall⟩
      · left; exact hpos
    · rw [if_neg hcond]; left; exact le_refl 1

/-- Provenance: every item the deck loop produces is the parse of one of
the iterated lines. -/
theorem buildCards_mem (name : Json) (es : List Json) :
    ∀ items, buildCards name es = Except.ok items →
      ∀ it ∈ items, ∃ sline, Json.str sline ∈ es
        ∧ parse_deck_entry sline = (it.name, it.quantity) := by
  induction es with
  | nil =>
    intro items h it hit
    simp only [buildCards, Except.ok.injEq] at h
    rw [← h] at hit
    exact absurd hit (List.not_mem_nil it)
  | cons e es ih =>
    intro items h it hit
    cases e with
    | str sl =>
      simp only [buildCards] at h
      cases hjl : jsonLower name with
      | error err => rw [hjl] at h; exact Except.noConfusion h
      | ok nl =>
      rw [hjl] at h
      cases hbc : buildCards name es with
      | error err => rw [hbc] at h; exact Except.noConfusion h
      | ok rest =>
      rw [hbc] at h
      simp only [Except.ok.injEq] at h
      by_cases hcmp : (lowerStr (parse_deck_entry sl).1 == nl) = true
      · rw [if_pos hcmp] at h
        rw [← h] at hit
        obtain ⟨sl', hmem, hp⟩ := ih rest hbc it hit
        exact ⟨sl', List.mem_cons_of_mem _ hmem, hp⟩
      · rw [if_neg hcmp] at h
        rw [← h] at hit
        rcases List.mem_cons.mp hit with hit | hit
        · refine ⟨sl, List.mem_cons_self _ _, ?_⟩
          rw [hit]
        · obtain ⟨sl', hmem, hp⟩ := ih rest hbc it hit
          exact ⟨sl', List.mem_cons_of_mem _ hmem, hp⟩
    | null => simp only [buildCards] at h; exact Except.noConfusion h
    | bool b => simp only [buildCards] at h; exact Except.noConfusion h
    | num n => simp only [buildCards] at h; exact Except.noConfusion h
    | arr xs => simp only [buildCards] at h; exact Except.noConfusion h
    | obj kvs => simp only [buildCards] at h; exact Except.noConfusion h

/-- A payload whose deck holds the line "0 Mountain": the digit prefix is
"0", so the parsed quantity is 0, not a positive integer. -/
def zeroQtyPayload : Json :=
  Json.obj [("container", Json.obj [("json_dict", Json.obj [("card",
    Json.obj [("name", Json.str "Alpha".toList)])])]),
    ("deck", Json.arr [Json.str "0 Mountain".toList])]

theorem C2_quantity_counterexample :
    (extract_commander_info zeroQtyPayload "alpha").map
        (fun r => r.cards.map Item.quantity) = some [0]
    ∧ ¬ 1 ≤ (0 : Nat) :=
  ⟨rfl, by decide⟩

/-- C2 (amended): every LineItem of a produced record has quantity ≥ 1,
except items parsed from a deck line whose digit prefix denotes zero
(a non-empty all-'0' prefix before the first space); those have
quantity 0. -/
theorem C2_item_quantities (data : Json) (slug : String) (r : Record)
    (h : extract_commander_info data slug = some r) :
    ∀ it ∈ r.cards, 1 ≤ it.quantity ∨
      (it.quantity = 0 ∧ ∃ line, Json.str line ∈ deckElems data
        ∧ parse_deck_entry line = (it.name, it.quantity)
        ∧ zeroDigitPrefixed line = true) := by
  rw [extract_commander_info, toOption_eq_some] at h
  obtain ⟨card, rawColors, deckJ, entries, hc, hn, hfalsy, hrc, hcc, hd, hie, hbc, hslug⟩ :=
    extractE_ok_inversion data slug r h
  intro it hit
  obtain ⟨line, hline, hparse⟩ := buildCards_mem r.name entries r.cards hbc it hit
  have hq : (parse_deck_entry line).2 = it.quantity := by rw [hparse]
  rcases parse_quantity_pos line with hpos | ⟨hzero, hzp⟩
  · left; rw [hq] at hpos; exact hpos
  · right
    rw [hq] at hzero
    refine ⟨hzero, line, ?_, hparse, hzp⟩
    cases data with
    | obj kvs =>
      have hdj : (lookupKV kvs "deck").getD (Json.arr []) = deckJ := by
        simp only [jget, Except.ok.injEq] at hd
        exact hd
      simp only [deckElems, hdj, hie]
      exact hline
    | null => simp [jget] at hd
    | bool b => simp [jget] at hd
    | num n => simp [jget] at hd
    | str s => simp [jget] at hd
    | arr xs => simp [jget] at hd

theorem C2_item_quantities_witness :
    1 ≤ (Item.mk "Sword".toList 1).quantity ∨
      ((Item.mk "Sword".toList 1).quantity = 0
        ∧ ∃ line, Json.str line ∈ deckElems samplePayload
          ∧ parse_deck_entry line
              = ((Item.mk "Sword".toList 1).name, (Item.mk "Sword".toList 1).quantity)
          ∧ zeroDigitPrefixed line = true) :=
  C2_item_quantities samplePayload "alpha" sampleRecord rfl
    (Item.mk "Sword".toList 1) (by decide)

/-- Fields of a detail payload that has no flat `deck` list but does
carry a grouped cardlist naming "Sol Ring". -/
def fallbackKvs : List (String × Json) :=
  [("container", Json.obj [("json_dict", Json.obj [
    ("card", Json.obj [("name", Json.str "Alpha".toList)]),
    ("cardlists", Json.arr [Json.arr [Json.obj
      [("name", Json.str "Sol Ring".toList)]]])])])]

def fallbackPayload : Json := Json.obj fallbackKvs

/-- The record the code produces from `fallbackPayload`: empty cards. -/
def fallbackRecord : Record := ⟨Json.str "Alpha".toList, "alpha", [], 0, []⟩

theorem C3_fallback_counterexample :
    extract_commander_info fallbackPayload "alpha" = some fallbackRecord
    ∧ fallbackRecord.cards = []
    ∧ specFallbackCards fallbackPayload = [⟨"Sol Ring".toList, 1⟩]
    ∧ fallbackRecord.cards ≠ specFallbackCards fallbackPayload :=
  ⟨rfl, rfl, rfl, by decide⟩

/-- C3 (amended): when the payload's flat `deck` line list is absent, the
extractor does not aggregate the grouped cardlists; it defaults the deck
to the empty list, so a successfully produced record has an empty cards
collection. -/
theorem C3_missing_deck_empty_cards (kvs : List (String × Json)) (slug : String)
    (r : Record) (hno : lookupKV kvs "deck" = none)
    (h : extract_commander_info (Json.obj kvs) slug = some r) :
    r.cards = [] := by
  rw [extract_commander_info, toOption_eq_some] at h
  obtain ⟨card, rawColors, deckJ, entries, hc, hn, hfalsy, hrc, hcc, hd, hie, hbc, hslug⟩ :=
    extractE_ok_inversion _ slug r h
  have hdj : deckJ = Json.arr [] := by
    simp only [jget, hno, Option.getD_none, Except.ok.injEq] at hd
    exact hd.symm
  rw [hdj] at hie
  have hent : entries = [] := by
    simp only [iterElems, Except.ok.injEq] at hie
    exact hie.symm
  rw [hent] at hbc
  simp only [buildCards, Except.ok.injEq] at hbc
  exact hbc.symm

theorem C3_missing_deck_empty_cards_witness : fallbackRecord.cards = [] :=
  C3_missing_deck_empty_cards fallbackKvs "alpha" fallbackRecord rfl rfl

theorem C10_unique_slugs_witness :
    TOP_COMMANDERS.Nodup
    ∧ ((mainCommanders fetchStub 2).map (fun r => r.slug)).Nodup :=
  ⟨C10_unique_slugs.1, C10_unique_slugs.2 fetchStub 2⟩
